import Mathlib

/-!
Verification of the thread-pool core of `rust-book/c21-web-server/src/lib.rs`.

The source is a fixed-size worker pool:

* `Worker::new(id, receiver)` spawns a thread running
  `loop { let msg = receiver.lock().expect("...").recv();
          if let Ok(job) = msg { job(); } else { break; } }`.
* `ThreadPool::new(size)` asserts `size > 0`, creates an mpsc channel,
  wraps the receiver in `Arc<Mutex<..>>` and spawns `size` workers
  with ids `0..size`.
* `ThreadPool::execute(f)` does `self.sender.as_ref().unwrap().send(job).unwrap()`.
* `impl Drop for ThreadPool` does `drop(self.sender.take())` and then pops
  each worker off the `Vec` and joins it.

We embed this code at three levels of abstraction, each translated directly
from the source:

1. `workerLoop`: the body of the thread spawned by `Worker::new`, as a
   function of the sequence of events its receive attempts observe
   (a received job, a receive error on channel closure, or a poisoned lock).
   Rust panic propagation is explicit: a panicking job or a poisoned lock
   unwinds the thread, ending the loop.
2. A structural model of `ThreadPool::new`, `ThreadPool::execute` and the
   `Drop` implementation, where a Rust panic is `Option.none`.
3. A small-step interleaving semantics of the whole pool
   (producer sends, channel closure, workers receiving, running and
   finishing jobs, workers exiting on disconnection), used for the
   queue-ordering, exactly-once, concurrency and shutdown-quiescence
   properties.  The full relation `StepP` includes the source's
   handler-panic exit, in which `job()` panicking unwinds and kills the
   worker thread; `Step` is its panic-free fragment (every handler
   returns normally), singled out because several properties hold only
   there.
-/

/-! ## Level 1: the worker thread's loop (`Worker::new`, lib.rs lines 15-30) -/

/-- A job as seen by a worker: an identifier (for bookkeeping) and whether
its handler panics when run.  In the source a job is
`Box<dyn FnOnce() + Send + 'static>`; the only observable of running it that
matters to the worker loop is whether it returns normally or panics. -/
structure JobSpec where
  id : Nat
  panics : Bool
deriving DecidableEq, Repr

/-- One iteration's input to the worker loop: what
`receiver.lock().expect(..).recv()` yields.
`poisoned` models `lock()` returning `Err` (the `expect` then panics);
`recvOk j` models `recv()` returning `Ok(job)`;
`recvErr` models `recv()` returning `Err` (all senders dropped and the
channel drained). -/
inductive LoopInput where
  | poisoned : LoopInput
  | recvOk : JobSpec → LoopInput
  | recvErr : LoopInput
deriving DecidableEq, Repr

/-- How the worker thread ends (or fails to end).
`cleanExit` is the `break` on `recv()` error; `jobPanic i` is an unwind out
of `job()`; `lockPanic` is the `expect` on a poisoned lock panicking;
`blocked` means the event sequence ran out while the worker was still
waiting in `recv()` (the thread is alive and blocked, not exited). -/
inductive ExitKind where
  | cleanExit : ExitKind
  | jobPanic : Nat → ExitKind
  | lockPanic : ExitKind
  | blocked : ExitKind
deriving DecidableEq, Repr

/-- The loop body of the thread spawned by `Worker::new`, lib.rs lines 16-29,
driven by the sequence of events its receive attempts observe.  Returns the
list of job ids that ran to completion, in order, and how the loop ended.
A panicking job unwinds the thread: the loop does not continue (there is no
`catch_unwind` in the source), so jobs after it are never received. -/
def workerLoop : List LoopInput → List Nat × ExitKind
  | [] => ([], ExitKind.blocked)
  | LoopInput.poisoned :: _ => ([], ExitKind.lockPanic)
  | LoopInput.recvErr :: _ => ([], ExitKind.cleanExit)
  | LoopInput.recvOk j :: rest =>
      if j.panics then ([], ExitKind.jobPanic j.id)
      else
        let r := workerLoop rest
        (j.id :: r.1, r.2)

/-- Completed-jobs component of `workerLoop`. -/
def workerCompleted (evs : List LoopInput) : List Nat :=
  (workerLoop evs).1

/-- Exit component of `workerLoop`. -/
def workerExit (evs : List LoopInput) : ExitKind :=
  (workerLoop evs).2

theorem workerLoop_nil : workerLoop [] = ([], ExitKind.blocked) := rfl

theorem workerLoop_recvOk_ok (j : JobSpec) (rest : List LoopInput)
    (h : j.panics = false) :
    workerLoop (LoopInput.recvOk j :: rest) =
      (j.id :: (workerLoop rest).1, (workerLoop rest).2) := by
  simp [workerLoop, h]

theorem workerLoop_recvOk_panics (j : JobSpec) (rest : List LoopInput)
    (h : j.panics = true) :
    workerLoop (LoopInput.recvOk j :: rest) = ([], ExitKind.jobPanic j.id) := by
  simp [workerLoop, h]

/-- A list of non-panicking jobs, received then followed by arbitrary further
events, is completed in order and the loop continues with the rest. -/
theorem workerLoop_ok_jobs (jobs : List JobSpec) (rest : List LoopInput)
    (h : ∀ j ∈ jobs, j.panics = false) :
    workerLoop (jobs.map LoopInput.recvOk ++ rest) =
      (jobs.map JobSpec.id ++ (workerLoop rest).1, (workerLoop rest).2) := by
  induction jobs with
  | nil => simp
  | cons j js ih =>
      have hj : j.panics = false := h j (List.mem_cons_self j js)
      have hrest : ∀ x ∈ js, x.panics = false := fun x hx =>
        h x (List.mem_cons_of_mem j hx)
      simp only [List.map_cons, List.cons_append,
        workerLoop_recvOk_ok j _ hj, ih hrest]

/-! ## Level 3 state space: the pool as a transition system

Jobs at this level are identified by a `Nat` (the system never inspects a
job's closure; job handlers complete normally here — unwinding is level 1's
concern).  The mpsc channel of the source is FIFO: `send` appends at the
tail, `recv` takes the head; `recv` reports disconnection exactly when the
buffer is empty and the sender has been dropped.  The `Mutex` around the
receiver serializes receives, which the atomic `startJob` step reflects. -/

/-- One worker's state.  `running = false` means the thread has exited its
loop (lib.rs line 27, `break`).  `current` is the job taken by `recv` and
being executed by `job()` (lib.rs line 24); `log` records the jobs whose
handler returned, in completion order. -/
structure WorkerState where
  running : Bool
  current : Option Nat
  log : List Nat
deriving DecidableEq, Repr

/-- The whole pool: the channel buffer (head = next to be received), whether
the `Sender` is still alive (`ThreadPool.sender` is `Some` and undropped),
the workers in creation order, and two histories: every job ever sent
(`submitted`, in send order) and every job ever taken out of the channel by
a worker (`dequeued`, in receive order). -/
structure SysState where
  buf : List Nat
  senderAlive : Bool
  workers : List WorkerState
  submitted : List Nat
  dequeued : List Nat
deriving DecidableEq, Repr

/-- A freshly spawned worker: in its loop, no job in hand, nothing done. -/
def WorkerState.init : WorkerState :=
  { running := true, current := none, log := [] }

/-- State built by `ThreadPool::new(size)` after the `for` loop, lib.rs
lines 51-59: an empty channel with a live sender and `size` workers. -/
def initState (size : Nat) : SysState :=
  { buf := []
    senderAlive := true
    workers := (List.range size).map (fun _ => WorkerState.init)
    submitted := []
    dequeued := [] }

/-- `ThreadPool::new`, lib.rs lines 48-60.  `assert!(size > 0)` panics on
`size = 0`, modelled as `none`; otherwise the pool of `initState size`. -/
def ThreadPool.new (size : Nat) : Option SysState :=
  if size > 0 then some (initState size) else none

/-- `ThreadPool::execute`, lib.rs lines 62-69:
`self.sender.as_ref().unwrap().send(job).unwrap()`.  If the sender has been
taken (`senderAlive = false`), `as_ref().unwrap()` panics: `none`.
Otherwise the job is appended to the channel. -/
def ThreadPool.execute (s : SysState) (j : Nat) : Option SysState :=
  if s.senderAlive then
    some { s with buf := s.buf ++ [j], submitted := s.submitted ++ [j] }
  else
    none

/-- The first statement of `Drop for ThreadPool`, lib.rs line 74:
`drop(self.sender.take())`, which closes the channel's sending side. -/
def beginShutdown (s : SysState) : SysState :=
  { s with senderAlive := false }

/-! ### The step relation -/

/-- One interleaved step of the pool system.

* `send`: the producer calls `execute` while the sender is alive
  (lib.rs line 68); the channel appends the job.
* `close`: `drop(self.sender.take())` in `Drop` (lib.rs line 74).
* `startJob`: a worker inside its loop with no job in hand locks the
  receiver and `recv()` returns `Ok(job)` — the head of a nonempty buffer
  (lib.rs lines 17-22); it begins executing `job()`.
* `finishJob`: the running handler returns (end of lib.rs line 24); the
  worker records the job and loops.
* `workerExit`: `recv()` returns `Err` — buffer empty and sender dropped —
  and the worker breaks out of its loop (lib.rs lines 25-28).

Every `job()` call in these steps returns normally; the source's other
worker exit — the handler panicking and unwinding the thread (lib.rs
line 24, no `catch_unwind`) — is the `panicDeath` step of `StepP` below,
of which `Step` is the panic-free fragment. -/
inductive Step : SysState → SysState → Prop where
  | send (s : SysState) (j : Nat) (h : s.senderAlive = true) :
      Step s { s with buf := s.buf ++ [j], submitted := s.submitted ++ [j] }
  | close (s : SysState) :
      Step s { s with senderAlive := false }
  | startJob (s : SysState) (i : Nat) (w : WorkerState) (j : Nat)
      (rest : List Nat)
      (hw : s.workers.get? i = some w)
      (hrun : w.running = true) (hidle : w.current = none)
      (hbuf : s.buf = j :: rest) :
      Step s { s with
        buf := rest
        workers := s.workers.set i { w with current := some j }
        dequeued := s.dequeued ++ [j] }
  | finishJob (s : SysState) (i : Nat) (w : WorkerState) (j : Nat)
      (hw : s.workers.get? i = some w)
      (hcur : w.current = some j) :
      Step s { s with
        workers := s.workers.set i { w with current := none, log := w.log ++ [j] } }
  | workerExit (s : SysState) (i : Nat) (w : WorkerState)
      (hw : s.workers.get? i = some w)
      (hrun : w.running = true) (hidle : w.current = none)
      (hbuf : s.buf = []) (hclosed : s.senderAlive = false) :
      Step s { s with workers := s.workers.set i { w with running := false } }

/-- Zero or more interleaved panic-free steps. -/
def Steps : SysState → SysState → Prop :=
  Relation.ReflTransGen Step

/-- One step of the full pool system, the source's panic exit included.
Besides the panic-free steps, a worker whose current `job()` call panics
has its thread unwound (lib.rs line 24 — nothing catches the panic): the
worker is dead, never reaches `recv` again, and the job it was executing
is recorded in no log; anything still queued stays in the channel. -/
inductive StepP : SysState → SysState → Prop where
  | ofStep {s t : SysState} (h : Step s t) : StepP s t
  | panicDeath (s : SysState) (i : Nat) (w : WorkerState) (j : Nat)
      (hw : s.workers.get? i = some w)
      (hrun : w.running = true) (hcur : w.current = some j) :
      StepP s { s with
        workers := s.workers.set i { w with running := false, current := none } }

/-- Zero or more steps of the full system. -/
def StepsP : SysState → SysState → Prop :=
  Relation.ReflTransGen StepP

/-- Every worker thread has exited its loop (what `join` on all workers
waits for). -/
def allTerminated (s : SysState) : Bool :=
  s.workers.all (fun w => !w.running)

/-- All completed jobs, concatenated over workers in creation order. -/
def allLogs (s : SysState) : List Nat :=
  s.workers.flatMap WorkerState.log

/-- Jobs currently held (taken from the channel, handler not yet returned)
or completed by a worker. -/
def WorkerState.taken (w : WorkerState) : List Nat :=
  w.log ++ w.current.toList

/-! ## Level 2: the `Drop for ThreadPool` body (lib.rs lines 72-82)

`Drop` manipulates only the struct's two fields, so it is modelled over a
structural view of the pool: the `workers: Vec<Worker>` as the list of worker
ids in push order, and the `sender: Option<Sender<Job>>`. -/

/-- The two fields of `struct ThreadPool` (lib.rs lines 35-38) as far as
`Drop` can see them: worker ids in the order `Vec::push` inserted them, and
the optional sender. -/
structure PoolStruct where
  workers : List Nat
  sender : Option Unit
deriving DecidableEq, Repr

/-- The fields of the pool built by `ThreadPool::new(size)`: worker ids
`0..size` pushed in order, and `Some(sender)` (lib.rs lines 54-59). -/
def PoolStruct.ofNew (size : Nat) : PoolStruct :=
  { workers := List.range size, sender := some () }

/-- `Vec::pop`: removes and returns the last element, `None` on empty. -/
def vecPop (v : List Nat) : Option (Nat × List Nat) :=
  match v.getLast? with
  | none => none
  | some w => some (w, v.dropLast)

/-- The `for _ in 0..self.workers.len()` loop of `Drop` (lib.rs lines
75-80): `count` remaining iterations; each iteration pops a worker and joins
it.  Returns the worker vector left over and the ids joined, in join
order. -/
def dropJoinLoop : Nat → List Nat → List Nat × List Nat
  | 0, v => (v, [])
  | count + 1, v =>
      match vecPop v with
      | none => dropJoinLoop count v
      | some (w, rest) =>
          let r := dropJoinLoop count rest
          (r.1, w :: r.2)

/-- `impl Drop for ThreadPool` (lib.rs lines 72-82): first
`drop(self.sender.take())` (the sender field becomes `None`, the channel is
closed by dropping the taken sender), then the join loop over
`self.workers.len()` iterations.  Returns the struct as `drop` leaves it and
the join order. -/
def dropPool (p : PoolStruct) : PoolStruct × List Nat :=
  let afterTake : PoolStruct := { p with sender := none }
  let r := dropJoinLoop afterTake.workers.length afterTake.workers
  ({ afterTake with workers := r.1 }, r.2)

theorem dropJoinLoop_length (v : List Nat) :
    dropJoinLoop v.length v = ([], v.reverse) := by
  induction v using List.reverseRecOn with
  | nil => rfl
  | append_singleton xs x ih =>
      have hpop : vecPop (xs ++ [x]) = some (x, xs) := by
        simp [vecPop, List.getLast?_append, List.dropLast_append_of_ne_nil]
      simp [dropJoinLoop, hpop, ih]

/-! ### Invariants of the transition system -/

/-- Replacing one element of a list shifts a `Nat`-valued sum by the
difference at that position (stated additively). -/
theorem sum_map_set {α : Type} (f : α → Nat) (ws : List α) (i : Nat) (w v : α)
    (hw : ws.get? i = some w) :
    ((ws.set i v).map f).sum + f w = (ws.map f).sum + f v := by
  induction ws generalizing i with
  | nil => simp at hw
  | cons a t ih =>
      cases i with
      | zero =>
          simp only [List.get?_cons_zero, Option.some.injEq] at hw
          subst hw
          simp only [List.set_cons_zero, List.map_cons, List.sum_cons]
          omega
      | succ k =>
          simp only [List.get?_cons_succ] at hw
          have := ih k hw
          simp only [List.set_cons_succ, List.map_cons, List.sum_cons]
          omega

/-- Occurrences of job id `x` among the jobs a worker has taken. -/
def takenCount (x : Nat) (w : WorkerState) : Nat :=
  w.taken.count x

/-- The inductive invariant of the pool system.

1. every submitted job is either already dequeued or still in the channel,
   and submission order is preserved into the channel;
2. the dequeued jobs are distributed over the workers' hands and logs
   (counted per job id);
3. a worker that has left its loop holds no job;
4. once any worker has exited, the sender must already have been dropped;
5. if all workers of a nonempty pool have exited, the channel is empty. -/
def PoolInv (s : SysState) : Prop :=
  s.submitted = s.dequeued ++ s.buf ∧
  (∀ x : Nat,
    s.dequeued.count x = (s.workers.map (takenCount x)).sum) ∧
  (∀ w ∈ s.workers, w.running = false → w.current = none) ∧
  ((∃ w ∈ s.workers, w.running = false) → s.senderAlive = false) ∧
  (s.workers ≠ [] → allTerminated s = true → s.buf = [])

theorem poolInv_initState (n : Nat) : PoolInv (initState n) := by
  refine ⟨rfl, ?_, ?_, ?_, ?_⟩
  · intro x
    simp [initState, takenCount, WorkerState.taken, WorkerState.init,
      List.map_map, Function.comp]
  · intro w hw
    simp only [initState, List.mem_map] at hw
    obtain ⟨_, _, rfl⟩ := hw
    simp [WorkerState.init]
  · rintro ⟨w, hw, hrun⟩
    simp only [initState, List.mem_map] at hw
    obtain ⟨_, _, rfl⟩ := hw
    simp [WorkerState.init] at hrun
  · intro _ hat
    simp [initState]

theorem exists_exited_of_allTerminated (s : SysState) (hne : s.workers ≠ [])
    (h : allTerminated s = true) : ∃ w ∈ s.workers, w.running = false := by
  have hall := (List.all_eq_true).1 h
  cases hws : s.workers with
  | nil => exact absurd hws hne
  | cons w t =>
      refine ⟨w, by simp [hws], ?_⟩
      have := hall w (by simp [hws])
      simpa using this

theorem poolInv_step {s t : SysState} (hs : PoolInv s) (hstep : Step s t) :
    PoolInv t := by
  obtain ⟨h1, h2, h3, h4, h5⟩ := hs
  cases hstep with
  | send j h =>
      refine ⟨?_, ?_, h3, ?_, ?_⟩
      · simp [h1, List.append_assoc]
      · simpa using h2
      · intro hex
        exact absurd (h4 hex) (by simp [h])
      · intro hne hat
        obtain ⟨w, hw, hrun⟩ := exists_exited_of_allTerminated _ hne hat
        exact absurd (h4 ⟨w, hw, hrun⟩) (by simp [h])
  | close =>
      exact ⟨h1, h2, h3, fun _ => rfl, fun hne hat => h5 hne hat⟩
  | startJob i w j rest hw hrun hidle hbuf =>
      have hwmem : w ∈ s.workers := List.get?_mem hw
      have hilt : i < s.workers.length := by
        rcases List.get?_eq_some.1 hw with ⟨hl, _⟩
        exact hl
      refine ⟨?_, ?_, ?_, ?_, ?_⟩
      · simp only
        rw [h1, hbuf]
        simp
      · intro x
        have hsum := sum_map_set (takenCount x) s.workers i w
          { w with current := some j } hw
        have hup : takenCount x { w with current := some j } =
            takenCount x w + List.count x [j] := by
          simp [takenCount, WorkerState.taken, hidle]
        rw [hup] at hsum
        simp only [List.count_append, h2 x]
        omega
      · intro u hu hurun
        rcases List.mem_or_eq_of_mem_set hu with hmem | rfl
        · exact h3 u hmem hurun
        · simp only at hurun
          exact absurd hurun (by simp [hrun])
      · rintro ⟨u, hu, hurun⟩
        rcases List.mem_or_eq_of_mem_set hu with hmem | rfl
        · exact h4 ⟨u, hmem, hurun⟩
        · simp only at hurun
          exact absurd hurun (by simp [hrun])
      · intro hne hat
        have hmem : ({ w with current := some j } : WorkerState) ∈
            s.workers.set i { w with current := some j } :=
          List.mem_set s.workers i (by simpa using hilt) _
        have := (List.all_eq_true).1 hat _ hmem
        simp [hrun] at this
  | finishJob i w j hw hcur =>
      have hwmem : w ∈ s.workers := List.get?_mem hw
      have hilt : i < s.workers.length := by
        rcases List.get?_eq_some.1 hw with ⟨hl, _⟩
        exact hl
      refine ⟨h1, ?_, ?_, ?_, ?_⟩
      · intro x
        have hsum := sum_map_set (takenCount x) s.workers i w
          { w with current := none, log := w.log ++ [j] } hw
        have hup : takenCount x { w with current := none, log := w.log ++ [j] } =
            takenCount x w := by
          simp [takenCount, WorkerState.taken, hcur]
        rw [hup] at hsum
        simp only [h2 x]
        omega
      · intro u hu hurun
        rcases List.mem_or_eq_of_mem_set hu with hmem | rfl
        · exact h3 u hmem hurun
        · rfl
      · rintro ⟨u, hu, hurun⟩
        rcases List.mem_or_eq_of_mem_set hu with hmem | rfl
        · exact h4 ⟨u, hmem, hurun⟩
        · simp only at hurun
          exact h4 ⟨w, hwmem, hurun⟩
      · intro hne hat
        have hmem : ({ w with current := none, log := w.log ++ [j] } :
            WorkerState) ∈
            s.workers.set i { w with current := none, log := w.log ++ [j] } :=
          List.mem_set s.workers i (by simpa using hilt) _
        have hterm := (List.all_eq_true).1 hat _ hmem
        simp only [Bool.not_eq_true'] at hterm
        have : w.current = none := h3 w hwmem (by simpa using hterm)
        rw [hcur] at this
        cases this
  | workerExit i w hw hrun hidle hbuf hclosed =>
      refine ⟨h1, ?_, ?_, ?_, ?_⟩
      · intro x
        have hsum := sum_map_set (takenCount x) s.workers i w
          { w with running := false } hw
        have hup : takenCount x { w with running := false } = takenCount x w := by
          simp [takenCount, WorkerState.taken]
        rw [hup] at hsum
        simp only [h2 x]
        omega
      · intro u hu hurun
        rcases List.mem_or_eq_of_mem_set hu with hmem | rfl
        · exact h3 u hmem hurun
        · simpa using hidle
      · intro _
        exact hclosed
      · intro _ _
        exact hbuf

theorem poolInv_steps {s t : SysState} (hst : Steps s t) (hs : PoolInv s) :
    PoolInv t := by
  induction hst with
  | refl => exact hs
  | tail _ hstep ih => exact poolInv_step ih hstep

theorem steps_workers_length {s t : SysState} (hst : Steps s t) :
    t.workers.length = s.workers.length := by
  induction hst with
  | refl => rfl
  | tail _ hstep ih =>
      cases hstep <;> simpa [List.length_set] using ih

theorem poolInv_reachable {n : Nat} {s : SysState}
    (hs : Steps (initState n) s) : PoolInv s :=
  poolInv_steps hs (poolInv_initState n)

/-! ### Quiescence after shutdown -/

/-- In a reachable state of a nonempty pool where every worker has exited,
the channel has been drained and the workers' logs together hold exactly the
submitted jobs. -/
theorem shutdown_counts {n : Nat} {s : SysState} (hn : 0 < n)
    (hs : Steps (initState n) s) (ht : allTerminated s = true) :
    s.buf = [] ∧ ∀ x : Nat, (allLogs s).count x = s.submitted.count x := by
  obtain ⟨h1, h2, h3, _, h5⟩ := poolInv_reachable hs
  have hlen : s.workers.length = n := by
    simpa [initState] using steps_workers_length hs
  have hne : s.workers ≠ [] := by
    intro h
    rw [h] at hlen
    simp at hlen
    omega
  have hbuf : s.buf = [] := h5 hne ht
  refine ⟨hbuf, fun x => ?_⟩
  have hall := List.all_eq_true.1 ht
  have hcur : ∀ w ∈ s.workers, w.current = none := fun w hw =>
    h3 w hw (by simpa using hall w hw)
  have hmap : s.workers.map (takenCount x) =
      s.workers.map (fun w => w.log.count x) :=
    List.map_congr_left (fun w hw => by
      simp [takenCount, WorkerState.taken, hcur w hw])
  rw [allLogs, List.count_flatMap, h1, hbuf, List.append_nil, h2 x, hmap]
  rfl

/-! ### A maximal-concurrency schedule

An explicit interleaving showing that `n` workers can hold `n` distinct jobs
simultaneously: submit jobs `0, …, n` and let worker `i` receive job `i`. -/

/-- A worker in the middle of executing job `j`, nothing completed yet. -/
def busyWorker (j : Nat) : WorkerState :=
  { running := true, current := some j, log := [] }

/-- The pool after the producer has submitted jobs `0, …, m-1` and no worker
has received anything yet. -/
def sentState (n m : Nat) : SysState :=
  { buf := List.range m
    senderAlive := true
    workers := (List.range n).map (fun _ => WorkerState.init)
    submitted := List.range m
    dequeued := [] }

/-- The pool after jobs `0, …, n` were submitted and workers `0, …, k-1`
have each received one job (worker `i` holds job `i`). -/
def midState (n k : Nat) : SysState :=
  { buf := (List.range (n + 1)).drop k
    senderAlive := true
    workers := (List.range n).map
      (fun i => if i < k then busyWorker i else WorkerState.init)
    submitted := List.range (n + 1)
    dequeued := List.range k }

theorem steps_to_sentState (n m : Nat) :
    Steps (initState n) (sentState n m) := by
  induction m with
  | zero =>
      have h : sentState n 0 = initState n := by
        simp [sentState, initState]
      rw [h]
      exact Relation.ReflTransGen.refl
  | succ m ih =>
      refine Relation.ReflTransGen.tail ih ?_
      have h := Step.send (sentState n m) m rfl
      have heq : ({ sentState n m with
          buf := (sentState n m).buf ++ [m],
          submitted := (sentState n m).submitted ++ [m] } : SysState) =
          sentState n (m + 1) := by
        simp [sentState, List.range_succ]
      rw [heq] at h
      exact h

theorem set_map_range_busy (n k : Nat) :
    ((List.range n).map
        (fun i => if i < k then busyWorker i else WorkerState.init)).set k
      (busyWorker k) =
    (List.range n).map
      (fun i => if i < k + 1 then busyWorker i else WorkerState.init) := by
  apply List.ext_getElem
  · simp
  · intro m h₁ h₂
    simp only [List.getElem_set, List.getElem_map, List.getElem_range]
    by_cases hmk : k = m
    · subst hmk
      simp
    · rw [if_neg hmk]
      by_cases hm : m < k
      · rw [if_pos hm, if_pos (by omega)]
      · rw [if_neg hm, if_neg (by omega)]

theorem step_midState (n k : Nat) (hk : k < n) :
    Step (midState n k) (midState n (k + 1)) := by
  have hw : (midState n k).workers.get? k = some WorkerState.init := by
    simp [midState, List.get?_eq_getElem?, List.getElem?_map,
      List.getElem?_range (by omega : k < n)]
  have hbuf : (midState n k).buf =
      k :: (List.range (n + 1)).drop (k + 1) := by
    have hkn : k < (List.range (n + 1)).length := by simp; omega
    simp only [midState]
    rw [List.drop_eq_getElem_cons hkn, List.getElem_range]
  have h := Step.startJob (midState n k) k WorkerState.init k
    ((List.range (n + 1)).drop (k + 1)) hw rfl rfl hbuf
  have heq : ({ midState n k with
      buf := (List.range (n + 1)).drop (k + 1),
      workers := (midState n k).workers.set k
        { WorkerState.init with current := some k },
      dequeued := (midState n k).dequeued ++ [k] } : SysState) =
      midState n (k + 1) := by
    have hb : ({ WorkerState.init with current := some k } : WorkerState) =
        busyWorker k := rfl
    have hworkers : (midState n k).workers.set k
        { WorkerState.init with current := some k } =
        (midState n (k + 1)).workers := by
      rw [hb]
      simpa only [midState] using set_map_range_busy n k
    have hdeq : (midState n k).dequeued ++ [k] =
        (midState n (k + 1)).dequeued := by
      simp [midState, List.range_succ]
    simp only [midState] at hworkers hdeq ⊢
    rw [hworkers, hdeq]
  rw [heq] at h
  exact h

theorem steps_sent_to_mid (n : Nat) :
    ∀ k, k ≤ n → Steps (sentState n (n + 1)) (midState n k) := by
  intro k
  induction k with
  | zero =>
      intro _
      have h : midState n 0 = sentState n (n + 1) := by
        simp [midState, sentState]
      rw [h]
      exact Relation.ReflTransGen.refl
  | succ k ih =>
      intro hk
      exact Relation.ReflTransGen.tail (ih (by omega))
        (step_midState n k (by omega))

/-- The fully busy state is reachable from the fresh pool. -/
theorem steps_to_midState_full (n : Nat) :
    Steps (initState n) (midState n n) :=
  Relation.ReflTransGen.trans (steps_to_sentState n (n + 1))
    (steps_sent_to_mid n n (Nat.le_refl n))

theorem midState_full_workers (n : Nat) :
    (midState n n).workers = (List.range n).map busyWorker := by
  simp only [midState]
  apply List.map_congr_left
  intro i hi
  rw [if_pos (List.mem_range.1 hi)]

theorem midState_full_buf (n : Nat) : (midState n n).buf = [n] := by
  have hkn : n < (List.range (n + 1)).length := by simp
  simp only [midState]
  rw [List.drop_eq_getElem_cons hkn, List.getElem_range]
  have : (List.range (n + 1)).drop (n + 1) = [] := by
    apply List.drop_eq_nil_of_le
    simp
  rw [this]

/-- While every worker is executing a job, no step can take another job out
of the channel: the mutex-guarded `recv` is only reached by a worker whose
`job()` call has returned. -/
theorem dequeued_const_of_all_busy {s t : SysState}
    (hbusy : ∀ w ∈ s.workers, w.current ≠ none) (h : Step s t) :
    t.dequeued = s.dequeued := by
  cases h with
  | send j hsend => rfl
  | close => rfl
  | startJob i w j rest hw hrun hidle hbuf =>
      exact absurd hidle (hbusy w (List.get?_mem hw))
  | finishJob i w j hw hcur => rfl
  | workerExit i w hw hrun hidle hbuf hclosed => rfl

/-! ### Two concrete executions, used to instantiate the main theorems -/

/-- End state of a complete run of a one-worker pool on one job: job 7 is
submitted, the channel is closed, the worker takes it, finishes it and
exits. -/
def oneJobFinal : SysState :=
  { buf := []
    senderAlive := false
    workers := [{ running := false, current := none, log := [7] }]
    submitted := [7]
    dequeued := [7] }

theorem oneJobTrace : Steps (initState 1) oneJobFinal := by
  have h1 : Step (initState 1)
      ⟨[7], true, [WorkerState.init], [7], []⟩ :=
    Step.send (initState 1) 7 rfl
  have h2 : Step (⟨[7], true, [WorkerState.init], [7], []⟩ : SysState)
      ⟨[7], false, [WorkerState.init], [7], []⟩ :=
    Step.close _
  have h3 : Step (⟨[7], false, [WorkerState.init], [7], []⟩ : SysState)
      ⟨[], false, [⟨true, some 7, []⟩], [7], [7]⟩ :=
    Step.startJob _ 0 WorkerState.init 7 [] rfl rfl rfl rfl
  have h4 : Step (⟨[], false, [⟨true, some 7, []⟩], [7], [7]⟩ : SysState)
      ⟨[], false, [⟨true, none, [7]⟩], [7], [7]⟩ :=
    Step.finishJob _ 0 ⟨true, some 7, []⟩ 7 rfl rfl
  have h5 : Step (⟨[], false, [⟨true, none, [7]⟩], [7], [7]⟩ : SysState)
      oneJobFinal :=
    Step.workerExit _ 0 ⟨true, none, [7]⟩ rfl rfl rfl rfl rfl
  exact Relation.ReflTransGen.head h1 (Relation.ReflTransGen.head h2
    (Relation.ReflTransGen.head h3 (Relation.ReflTransGen.head h4
      (Relation.ReflTransGen.single h5))))

/-- A one-worker pool after jobs 1, 2, 3 were submitted in order and the
worker has taken the first one: jobs 2 and 3 still queue in submission
order. -/
def threeJobsMid : SysState :=
  { buf := [2, 3]
    senderAlive := true
    workers := [{ running := true, current := some 1, log := [] }]
    submitted := [1, 2, 3]
    dequeued := [1] }

theorem threeJobsTrace : Steps (initState 1) threeJobsMid := by
  have h1 : Step (initState 1)
      ⟨[1], true, [WorkerState.init], [1], []⟩ :=
    Step.send (initState 1) 1 rfl
  have h2 : Step (⟨[1], true, [WorkerState.init], [1], []⟩ : SysState)
      ⟨[1, 2], true, [WorkerState.init], [1, 2], []⟩ :=
    Step.send _ 2 rfl
  have h3 : Step (⟨[1, 2], true, [WorkerState.init], [1, 2], []⟩ : SysState)
      ⟨[1, 2, 3], true, [WorkerState.init], [1, 2, 3], []⟩ :=
    Step.send _ 3 rfl
  have h4 : Step (⟨[1, 2, 3], true, [WorkerState.init], [1, 2, 3], []⟩ :
      SysState) threeJobsMid :=
    Step.startJob _ 0 WorkerState.init 1 [2, 3] rfl rfl rfl rfl
  exact Relation.ReflTransGen.head h1 (Relation.ReflTransGen.head h2
    (Relation.ReflTransGen.head h3 (Relation.ReflTransGen.single h4)))

/-- Panic-free runs are runs of the full system. -/
theorem stepsP_of_steps {s t : SysState} (h : Steps s t) : StepsP s t := by
  induction h with
  | refl => exact Relation.ReflTransGen.refl
  | tail _ hstep ih => exact Relation.ReflTransGen.tail ih (StepP.ofStep hstep)

/-- End state of a run of a one-worker pool in which a handler panics:
jobs 1 and 2 were submitted, the channel was closed, the worker took job 1
and died of job 1's panic.  The only worker thread has terminated, yet
job 2 was never consumed — it sits in the closed channel, to be dropped
unrun with the receiver — and job 1 completed in no log. -/
def strandedFinal : SysState :=
  { buf := [2]
    senderAlive := false
    workers := [{ running := false, current := none, log := [] }]
    submitted := [1, 2]
    dequeued := [1] }

theorem strandedTrace : StepsP (initState 1) strandedFinal := by
  have h1 : StepP (initState 1) ⟨[1], true, [WorkerState.init], [1], []⟩ :=
    StepP.ofStep (Step.send (initState 1) 1 rfl)
  have h2 : StepP (⟨[1], true, [WorkerState.init], [1], []⟩ : SysState)
      ⟨[1, 2], true, [WorkerState.init], [1, 2], []⟩ :=
    StepP.ofStep (Step.send _ 2 rfl)
  have h3 : StepP (⟨[1, 2], true, [WorkerState.init], [1, 2], []⟩ : SysState)
      ⟨[1, 2], false, [WorkerState.init], [1, 2], []⟩ :=
    StepP.ofStep (Step.close _)
  have h4 : StepP (⟨[1, 2], false, [WorkerState.init], [1, 2], []⟩ : SysState)
      ⟨[2], false, [⟨true, some 1, []⟩], [1, 2], [1]⟩ :=
    StepP.ofStep (Step.startJob _ 0 WorkerState.init 1 [2] rfl rfl rfl rfl)
  have h5 : StepP (⟨[2], false, [⟨true, some 1, []⟩], [1, 2], [1]⟩ : SysState)
      strandedFinal :=
    StepP.panicDeath _ 0 ⟨true, some 1, []⟩ 1 rfl rfl rfl
  exact Relation.ReflTransGen.head h1 (Relation.ReflTransGen.head h2
    (Relation.ReflTransGen.head h3 (Relation.ReflTransGen.head h4
      (Relation.ReflTransGen.single h5))))

/-! ## The claims -/

/-- C1, counterexample.  The claim says a panicking job is confined: the
worker proceeds to fetch the next job, and in a pool of size 1 a failing job
followed by a succeeding job still has the succeeding job execute.  On the
source this is false: `Worker::new`'s loop calls `job()` with no
`catch_unwind`, so the panic unwinds the worker thread.  Concretely, with
job 1 panicking and job 2 well-behaved queued behind it, job 2 never runs
and the worker ends by panic, not by its clean `break`. -/
theorem panic_not_contained_counterexample :
    workerLoop [LoopInput.recvOk ⟨1, true⟩, LoopInput.recvOk ⟨2, false⟩,
        LoopInput.recvErr] = ([], ExitKind.jobPanic 1) ∧
    2 ∉ (workerLoop [LoopInput.recvOk ⟨1, true⟩, LoopInput.recvOk ⟨2, false⟩,
        LoopInput.recvErr]).1 ∧
    (workerLoop [LoopInput.recvOk ⟨1, true⟩, LoopInput.recvOk ⟨2, false⟩,
        LoopInput.recvErr]).2 ≠ ExitKind.cleanExit := by
  decide

/-- C1, amended.  A job whose handler panics terminates its Worker thread:
after completing any earlier jobs, the worker ends with that job's panic and
never receives or runs anything queued after it (so in a pool of size 1 a
succeeding job behind a failing one does not execute, and the worker never
reaches its clean exit). -/
theorem panicking_job_kills_worker (pre : List JobSpec) (j : JobSpec)
    (post : List LoopInput) (hpre : ∀ p ∈ pre, p.panics = false)
    (hj : j.panics = true) :
    workerLoop (pre.map LoopInput.recvOk ++ LoopInput.recvOk j :: post) =
      (pre.map JobSpec.id, ExitKind.jobPanic j.id) := by
  have h := workerLoop_ok_jobs pre (LoopInput.recvOk j :: post) hpre
  rw [h, workerLoop_recvOk_panics j post hj]
  simp

/-- Witness for C1's amended theorem: one good job, then a panicking one,
with the channel closure still pending behind them. -/
theorem panicking_job_kills_worker_witness :
    workerLoop [LoopInput.recvOk ⟨0, false⟩, LoopInput.recvOk ⟨1, true⟩,
        LoopInput.recvErr] = ([0], ExitKind.jobPanic 1) :=
  panicking_job_kills_worker [⟨0, false⟩] ⟨1, true⟩ [LoopInput.recvErr]
    (by decide) rfl

/-- C2, counterexample.  The claim says that once shutdown completes —
every worker thread terminated — every job submitted before shutdown began
has been consumed and run to completion, "no already-submitted job is
dropped".  On the source this fails once a handler panics: in a one-worker
pool with jobs 1 (panicking) and 2 submitted and the channel closed, the
worker takes job 1 and dies of its panic.  Every worker thread has then
terminated (so `Drop`'s `join` loop is done waiting; its `unwrap` of the
`Err` join result turns into a panic of its own), yet job 2 was never
consumed — it is stranded in the closed channel and dropped unrun — and
even the consumed job 1 ran to completion on no worker. -/
theorem shutdown_drops_job_on_panic_counterexample :
    StepsP (initState 1) strandedFinal ∧
    allTerminated strandedFinal = true ∧
    strandedFinal.buf ≠ [] ∧
    2 ∈ strandedFinal.submitted ∧ 2 ∉ allLogs strandedFinal ∧
    1 ∈ strandedFinal.dequeued ∧ 1 ∉ allLogs strandedFinal :=
  ⟨strandedTrace, by decide, by decide, by decide, by decide, by decide,
    by decide⟩

/-- C2, amended.  In executions where every job handler returns normally —
the runs of `Step`, the panic-free fragment of the full relation `StepP` —
when shutdown completes (sender dropped, and every worker terminated,
which `Drop`'s `join` loop waits for), the channel is empty and the
workers' logs together hold exactly the multiset of submitted jobs:
closing the queue loses no submitted job and no handler can still be
running.  A panicking handler, by contrast, kills its worker and can
strand already-submitted jobs (see the counterexample). -/
theorem shutdown_joins_and_drains (n : Nat) (s : SysState) (hn : 0 < n)
    (hs : Steps (initState n) s) (ht : allTerminated s = true) :
    s.buf = [] ∧ (allLogs s).Perm s.submitted := by
  obtain ⟨hbuf, hcount⟩ := shutdown_counts hn hs ht
  exact ⟨hbuf, List.perm_iff_count.2 hcount⟩

/-- Witness for C2: the completed one-job run of a one-worker pool. -/
theorem shutdown_joins_and_drains_witness :
    oneJobFinal.buf = [] ∧ (allLogs oneJobFinal).Perm oneJobFinal.submitted :=
  shutdown_joins_and_drains 1 oneJobFinal (by decide) oneJobTrace (by decide)

/-- C3.  `ThreadPool::new(0)` hits `assert!(size > 0)` and panics instead of
building a zero-worker pool; for every positive size the assertion passes
and the pool is constructed. -/
theorem pool_new_zero_panics_pos_succeeds :
    ThreadPool.new 0 = none ∧
    ∀ n : Nat, 0 < n → ThreadPool.new n = some (initState n) := by
  refine ⟨rfl, fun n hn => ?_⟩
  simp [ThreadPool.new, hn]

/-- Witness for C3 at size 3. -/
theorem pool_new_zero_panics_pos_succeeds_witness :
    ThreadPool.new 0 = none ∧ ThreadPool.new 3 = some (initState 3) :=
  ⟨pool_new_zero_panics_pos_succeeds.1,
    pool_new_zero_panics_pos_succeeds.2 3 (by decide)⟩

/-- C4.  Once shutdown has begun — `Drop` has taken the sender — every
subsequent `execute` panics (`self.sender.as_ref().unwrap()` unwraps
`None`): the submission is never silently dropped and never reported as a
success. -/
theorem execute_after_shutdown_panics (s : SysState) (j : Nat) :
    ThreadPool.execute (beginShutdown s) j = none := by
  simp [ThreadPool.execute, beginShutdown]

/-- C5.  In every reachable state the submission history is exactly the
dequeue history followed by the channel contents: jobs become available to
workers in FIFO submission order, whatever the interleaving, with no
constraint on completion order. -/
theorem fifo_submission_order (n : Nat) (s : SysState)
    (hs : Steps (initState n) s) :
    s.submitted = s.dequeued ++ s.buf :=
  (poolInv_reachable hs).1

/-- Witness for C5: after submitting 1, 2, 3 and one dequeue, the dequeue
history `[1]` is a prefix of the submissions and `[2, 3]` still queues in
order. -/
theorem fifo_submission_order_witness :
    threeJobsMid.submitted = threeJobsMid.dequeued ++ threeJobsMid.buf :=
  fifo_submission_order 1 threeJobsMid threeJobsTrace

/-- C6.  `ThreadPool::new(n)` (for `n ≥ 1`) builds the pool of `n` freshly
spawned workers over one shared channel; the `n` workers really can execute
concurrently: a state is reachable in which worker `i` is simultaneously
executing job `i` for every `i < n` while the `(n+1)`-th job waits in the
channel — and from any state in which all workers are busy, no step can
dequeue that next job until some worker finishes. -/
theorem pool_new_concurrent_capacity (n : Nat) (hn : 0 < n) :
    (ThreadPool.new n = some (initState n) ∧
      (initState n).workers.length = n ∧
      ∀ w ∈ (initState n).workers, w = WorkerState.init) ∧
    (∃ s : SysState, Steps (initState n) s ∧
      s.workers = (List.range n).map busyWorker ∧ s.buf = [n]) ∧
    (∀ s t : SysState, (∀ w ∈ s.workers, w.current ≠ none) → Step s t →
      t.dequeued = s.dequeued) := by
  refine ⟨⟨?_, ?_, ?_⟩, ⟨midState n n, steps_to_midState_full n,
    midState_full_workers n, midState_full_buf n⟩,
    fun s t hb h => dequeued_const_of_all_busy hb h⟩
  · simp [ThreadPool.new, hn]
  · simp [initState]
  · intro w hw
    simp only [initState, List.mem_map] at hw
    obtain ⟨_, _, rfl⟩ := hw
    rfl

/-- Witness for C6 at `n = 2`. -/
theorem pool_new_concurrent_capacity_witness :
    (ThreadPool.new 2 = some (initState 2) ∧
      (initState 2).workers.length = 2 ∧
      ∀ w ∈ (initState 2).workers, w = WorkerState.init) ∧
    (∃ s : SysState, Steps (initState 2) s ∧
      s.workers = (List.range 2).map busyWorker ∧ s.buf = [2]) ∧
    (∀ s t : SysState, (∀ w ∈ s.workers, w.current ≠ none) → Step s t →
      t.dequeued = s.dequeued) :=
  pool_new_concurrent_capacity 2 (by decide)

/-- C7.  The worker run loop, on jobs that complete: each received job is
executed synchronously to completion and the worker returns to receiving
(all received jobs are completed, in order); the loop terminates cleanly
(`break`) exactly when a receive reports permanent closure — with no
closure event, the worker does not exit between jobs but stays blocked in
`recv`. -/
theorem worker_state_machine (jobs : List JobSpec)
    (h : ∀ j ∈ jobs, j.panics = false) :
    workerLoop (jobs.map LoopInput.recvOk ++ [LoopInput.recvErr]) =
      (jobs.map JobSpec.id, ExitKind.cleanExit) ∧
    workerLoop (jobs.map LoopInput.recvOk) =
      (jobs.map JobSpec.id, ExitKind.blocked) := by
  constructor
  · rw [workerLoop_ok_jobs jobs _ h]
    simp [workerLoop]
  · have h0 := workerLoop_ok_jobs jobs [] h
    simpa [workerLoop] using h0

/-- Witness for C7 on two completing jobs. -/
theorem worker_state_machine_witness :
    workerLoop [LoopInput.recvOk ⟨4, false⟩, LoopInput.recvOk ⟨5, false⟩,
        LoopInput.recvErr] = ([4, 5], ExitKind.cleanExit) ∧
    workerLoop [LoopInput.recvOk ⟨4, false⟩, LoopInput.recvOk ⟨5, false⟩] =
      ([4, 5], ExitKind.blocked) :=
  worker_state_machine [⟨4, false⟩, ⟨5, false⟩] (by decide)

/-- C8.  With pairwise-distinct submitted jobs, a job is never executed
twice nor by two workers: in every reachable state each job occurs at most
once across all completion logs, and when all workers of a nonempty pool
have terminated, each submitted job occurs exactly once across the logs. -/
theorem job_runs_exactly_once (n : Nat) (s : SysState)
    (hs : Steps (initState n) s) (hnd : s.submitted.Nodup) :
    (∀ j : Nat, (allLogs s).count j ≤ 1) ∧
    (0 < n → allTerminated s = true →
      ∀ j ∈ s.submitted, (allLogs s).count j = 1) := by
  obtain ⟨h1, h2, _, _, _⟩ := poolInv_reachable hs
  constructor
  · intro j
    have hsub : s.submitted.count j ≤ 1 :=
      List.nodup_iff_count_le_one.1 hnd j
    have hdeq : s.dequeued.count j ≤ s.submitted.count j := by
      rw [h1, List.count_append]
      omega
    have hlogs : (allLogs s).count j ≤ s.dequeued.count j := by
      rw [allLogs, List.count_flatMap, h2 j]
      refine List.sum_le_sum ?_
      intro w hw
      simp only [Function.comp, takenCount, WorkerState.taken,
        List.count_append]
      omega
    omega
  · intro hn ht j hj
    have := (shutdown_counts hn hs ht).2 j
    rw [this]
    exact List.count_eq_one_of_mem hnd hj

/-- Witness for C8: the completed one-job run of a one-worker pool. -/
theorem job_runs_exactly_once_witness :
    (∀ j : Nat, (allLogs oneJobFinal).count j ≤ 1) ∧
    (0 < 1 → allTerminated oneJobFinal = true →
      ∀ j ∈ oneJobFinal.submitted, (allLogs oneJobFinal).count j = 1) :=
  job_runs_exactly_once 1 oneJobFinal oneJobTrace (by decide)

/-- C9.  A poisoned lock on the shared receiver is not contained as a
per-job failure: the worker's receive attempt
(`receiver.lock().expect(..)`) panics, aborting the whole loop — earlier
jobs stand completed, but nothing after the poisoning is executed and the
worker never reaches its clean exit. -/
theorem poisoned_lock_aborts_worker (pre : List JobSpec)
    (post : List LoopInput) (hpre : ∀ p ∈ pre, p.panics = false) :
    workerLoop (pre.map LoopInput.recvOk ++ LoopInput.poisoned :: post) =
      (pre.map JobSpec.id, ExitKind.lockPanic) := by
  rw [workerLoop_ok_jobs pre _ hpre]
  simp [workerLoop]

/-- Witness for C9: one completed job, then a poisoned lock with another
job still queued behind it. -/
theorem poisoned_lock_aborts_worker_witness :
    workerLoop [LoopInput.recvOk ⟨3, false⟩, LoopInput.poisoned,
        LoopInput.recvOk ⟨9, false⟩] = ([3], ExitKind.lockPanic) :=
  poisoned_lock_aborts_worker [⟨3, false⟩] [LoopInput.recvOk ⟨9, false⟩]
    (by decide)

/-- C10.  `Drop for ThreadPool` first takes the sender out of its `Option`
(leaving the field `None`; a second drop finds `None` and closes nothing,
so the queue is closed exactly once) and then pops and joins the workers
one by one — `Vec::pop` removes from the back, so join order is descending
worker id, the reverse of creation order — leaving the workers vector
empty. -/
theorem drop_reverse_join (n : Nat) :
    dropPool (PoolStruct.ofNew n) =
      ({ workers := [], sender := none }, (List.range n).reverse) ∧
    dropPool { workers := [], sender := none } =
      ({ workers := [], sender := none }, []) := by
  constructor
  · have h := dropJoinLoop_length (List.range n)
    rw [List.length_range] at h
    simp [dropPool, PoolStruct.ofNew, h]
  · rfl
